import Mathlib

/-!
# ACE training progress tracker (`src/progress-tracker.js`)

A shallow embedding of the class `AceProgressTracker` and proofs about it.

Modelling conventions.

* JavaScript numbers.  Scores and clock readings are integers.  An XP amount is
  a `JSNumber`: an integer-valued double, an infinity or `NaN`, and `+` on them
  is the double addition: a sum of magnitude beyond `2 ^ 53` is rounded to the
  nearest double, ties to even.  The only non-integral quantities of the
  program are the products `baseXP * multiplier` inside `calculateXP`; the
  multipliers `2.0, 1.5, 1.2, 1.0, 0.5` are kept exactly, as numbers of tenths,
  and `Math.round` is evaluated on tenths.  For the base values that occur the
  double-precision product is within `1e-14` of the exact one and never near a
  half, so `Math.round` returns the same integer on both.
* Objects.  `config.modules` and `state.modulesCompleted` are plain objects.
  A property read `obj[key]` finds own properties first and then the members
  every plain object inherits from `Object.prototype`; an assignment to the key
  `__proto__` of an object without such an own property replaces the prototype
  link instead of creating a property (ECMA-262, B.2.2.1).  The built-in
  prototypes are taken to be unmodified.
* State.  `this.state` has the shape of the object literal of lines 31-38, with
  completion records (lines 78-83) as the values of `modulesCompleted`.
* Effects.  Calls into the host are recorded in a list of `Effect`s.  What the
  host answers is an input (`Host`): whether `localStorage.setItem` raises
  (line 42, unguarded), whether the page is embedded, whether `postMessage`
  raises (caught, lines 97-107), and what the read of
  `window.parent.completeModule` in the condition of line 111 gives, which for
  a cross-origin parent is a `SecurityError` raised outside the `try` of lines
  112-116.  The console and the DOM calls complete.  Clock readings and the
  random suffix of the session id are explicit arguments.
-/

namespace AceProgressTracker

/-! ## JavaScript values used by the tracker -/

/-- Exceptions that the modelled code can raise: `SyntaxError` from `JSON.parse`,
`TypeError` from a property read on `undefined`, the exception of a failing
`localStorage.setItem`, and `SecurityError` from a read on a cross-origin
window. -/
inductive JSError where
  | invalidJSON
  | typeError
  | storageError
  | securityError
  deriving DecidableEq, Repr

/-- An XP amount as JavaScript holds it: an integer-valued double, an infinity
(`negative` tells which), or `NaN`. -/
inductive JSNumber where
  | int (n : Int)
  | inf (negative : Bool)
  | nan
  deriving DecidableEq, Repr

/-- Number of low bits a double cannot keep of the magnitude `m`: the least `e`
with `m / 2 ^ e < 2 ^ 53`.  The fuel bounds the search; `m` itself suffices
(`droppedBits_self`, `droppedBits_minimal`). -/
def droppedBits : Nat → Nat → Nat
  | 0, _ => 0
  | fuel + 1, m => if m < 2 ^ 53 then 0 else droppedBits fuel (m / 2) + 1

/-- The multiple of `2 ^ e` nearest to `m`, as a number of such units; a tie goes
to the even number. -/
def roundMantissa (m e : Nat) : Nat :=
  if 2 ^ e < 2 * (m % 2 ^ e) ∨ (2 * (m % 2 ^ e) = 2 ^ e ∧ (m / 2 ^ e) % 2 = 1) then
    m / 2 ^ e + 1
  else m / 2 ^ e

/-- The double nearest to the integer `n` (round to nearest, ties to even); the
rounded magnitude `2 ^ 1024` and beyond is an infinity. -/
def JSNumber.ofInt (n : Int) : JSNumber :=
  let e := droppedBits n.natAbs n.natAbs
  let q := roundMantissa n.natAbs e
  if 971 < e ∨ (e = 971 ∧ q = 2 ^ 53) then .inf (decide (n < 0))
  else .int (if n < 0 then -((q * 2 ^ e : Nat) : Int) else ((q * 2 ^ e : Nat) : Int))

/-- JavaScript `+` on these numbers: the exact sum rounded to a double; `NaN` is
absorbing and opposite infinities give `NaN`. -/
def JSNumber.add : JSNumber → JSNumber → JSNumber
  | .int a, .int b => JSNumber.ofInt (a + b)
  | .inf s, .int _ => .inf s
  | .int _, .inf s => .inf s
  | .inf s, .inf t => if s = t then .inf s else .nan
  | _, _ => .nan

/-- JavaScript `>=` on these numbers: every comparison with `NaN` is false. -/
def JSNumber.ge : JSNumber → JSNumber → Bool
  | .int a, .int b => decide (b ≤ a)
  | .inf s, .inf t => !s || t
  | .inf s, .int _ => !s
  | .int _, .inf t => t
  | _, _ => false

/-- Truthiness of a number: `0` and `NaN` are falsy. -/
def JSNumber.truthy : JSNumber → Bool
  | .int n => n != 0
  | .inf _ => true
  | .nan => false

/-- The property names a plain object inherits from `Object.prototype`
(ECMA-262 20.1.3 and B.2.2).  Each of them reads as a function, except
`__proto__`, which reads as the prototype object; all are truthy. -/
def objectPrototypeKeys : List String :=
  ["constructor", "hasOwnProperty", "isPrototypeOf", "propertyIsEnumerable",
   "toLocaleString", "toString", "valueOf", "__proto__",
   "__defineGetter__", "__defineSetter__", "__lookupGetter__", "__lookupSetter__"]

/-! ## Configuration (constructor, lines 8-23) -/

/-- One entry of `config.modules`. -/
structure ModuleConfig where
  name : String
  baseXP : Int
  icon : String
  deriving DecidableEq, Repr

/-- The object literal `config.modules`, as its own properties. -/
def configModules : List (String × ModuleConfig) :=
  [("classroom", ⟨"Classroom", 25, "📚"⟩),
   ("flashcards", ⟨"Flashcards", 15, "🎴"⟩),
   ("practice", ⟨"Practice Test", 30, "✍️"⟩),
   ("jeopardy", ⟨"Jeopardy", 35, "🎯"⟩)]

/-- The object `config.xpMultipliers`; every value is in tenths. -/
structure XPMultipliers where
  perfect : Int
  excellent : Int
  good : Int
  passing : Int
  low : Int
  deriving DecidableEq, Repr

/-- Multipliers `2.0, 1.5, 1.2, 1.0, 0.5`, in tenths. -/
def xpMultipliers : XPMultipliers :=
  { perfect := 20, excellent := 15, good := 12, passing := 10, low := 5 }

/-- The constant `config.storageKey`. -/
def storageKey : String := "aceProgress_v2"

/-- Result of the property read `this.config.modules[module]`. -/
inductive ConfigRead where
  | own (cfg : ModuleConfig)
  | inherited
  | undefined
  deriving DecidableEq, Repr

/-- First value stored under `key` in a list of own properties. -/
def ownLookup {κ α : Type} [DecidableEq κ] (key : κ) : List (κ × α) → Option α
  | [] => none
  | (k, v) :: rest => if k = key then some v else ownLookup key rest

/-- The read `this.config.modules[module]`: an own entry, else a member inherited
from `Object.prototype`, else `undefined`. -/
def readConfigModule (module : String) : ConfigRead :=
  match ownLookup module configModules with
  | some cfg => .own cfg
  | none => if module ∈ objectPrototypeKeys then .inherited else .undefined

/-- The read `moduleConfig.baseXP`; an inherited member has no such property. -/
def ConfigRead.baseXP : ConfigRead → Option Int
  | .own cfg => some cfg.baseXP
  | _ => none

/-! ## Progress state (lines 31-38, 78-83) -/

/-- The record written by `completeModule` under `modulesCompleted[module]`. -/
structure CompletionRecord where
  completed : Bool
  score : Int
  timestamp : Int
  xpEarned : JSNumber
  deriving DecidableEq, Repr

/-- The object `state.modulesCompleted`: its own properties, and the record that
has replaced its prototype link, if an assignment to `__proto__` did so. -/
structure ModulesCompleted where
  own : List (String × CompletionRecord)
  proto : Option CompletionRecord
  deriving DecidableEq, Repr

/-- The persisted aggregate `this.state`. -/
structure ProgressState where
  sessionId : String
  sessionStart : Int
  modulesCompleted : ModulesCompleted
  totalXP : JSNumber
  currentStreak : Int
  lastActivity : Int
  deriving DecidableEq, Repr

/-- Truthiness of a field of a record that serves as prototype; `none` when the
record has no own property of that name. -/
def CompletionRecord.fieldTruthy (r : CompletionRecord) (key : String) : Option Bool :=
  if key = "completed" then some r.completed
  else if key = "score" then some (r.score != 0)
  else if key = "timestamp" then some (r.timestamp != 0)
  else if key = "xpEarned" then some r.xpEarned.truthy
  else none

/-- Truthiness of the read `modulesCompleted[key]`: an own record is an object,
hence truthy; otherwise the prototype chain answers. -/
def ModulesCompleted.truthyAt (mc : ModulesCompleted) (key : String) : Bool :=
  match ownLookup key mc.own with
  | some _ => true
  | none =>
    match mc.proto.bind (fun r => r.fieldTruthy key) with
    | some b => b
    | none => decide (key ∈ objectPrototypeKeys)

/-- Replace every own entry stored under `key`, or append one when there is none. -/
def upsert {κ α : Type} [DecidableEq κ] (key : κ) (v : α) (l : List (κ × α)) :
    List (κ × α) :=
  if (ownLookup key l).isSome then l.map (fun e => if e.1 = key then (key, v) else e)
  else l ++ [(key, v)]

/-- The assignment `modulesCompleted[key] = r`. -/
def ModulesCompleted.assign (mc : ModulesCompleted) (key : String) (r : CompletionRecord) :
    ModulesCompleted :=
  if key = "__proto__" ∧ (ownLookup key mc.own).isNone then { mc with proto := some r }
  else { mc with own := upsert key r mc.own }

/-! ## calculateXP (lines 50-69) -/

/-- The multiplier chosen by lines 54-59, in tenths. -/
def multiplierFor (score : Int) : Int :=
  if score = 100 then xpMultipliers.perfect
  else if score ≥ 90 then xpMultipliers.excellent
  else if score ≥ 80 then xpMultipliers.good
  else if score ≥ 70 then xpMultipliers.passing
  else xpMultipliers.low

/-- Line 62: `!this.state.modulesCompleted[module] ? 10 : 0`. -/
def firstTimeBonus (st : ProgressState) (module : String) : Int :=
  if !st.modulesCompleted.truthyAt module then 10 else 0

/-- Value of `Math.round` at the number `tenths / 10`: the nearest integer, halves
up (`Math.round(x)` is the floor of `x + 0.5`). -/
def mathRoundTenths (tenths : Int) : Int := (tenths + 5) / 10

/-- Method `calculateXP(module, score)` in state `st`.  Line 52 returns 0 when the
read of `config.modules[module]` is falsy, that is `undefined`; with an inherited
member `moduleConfig.baseXP` is `undefined`, the product of line 66 is `NaN`, and
`Math.round(NaN + bonus)` is `NaN`. -/
def calculateXP (st : ProgressState) (module : String) (score : Int) : JSNumber :=
  match readConfigModule module with
  | .undefined => .int 0
  | moduleConfig =>
    let multiplier := multiplierFor score
    let bonus := firstTimeBonus st module
    match moduleConfig.baseXP with
    | some baseXP => .int (mathRoundTenths (baseXP * multiplier + 10 * bonus))
    | none => .nan

/-! ## Effects and host (lines 41-43, 73, 89-117, 248-284) -/

/-- What the read `window.parent.completeModule` in the condition of line 111
gives: a `SecurityError` when the parent is a cross-origin window, a falsy value
when the parent has no such member, or a member that line 113 calls, `throws`
saying whether that call raises. -/
inductive ParentRead where
  | securityError
  | absent
  | callable (throws : Bool)
  deriving DecidableEq, Repr

/-- What the host answers during a call of `completeModule`.  `setItemThrows`
says whether `localStorage.setItem` raises (storage full or disabled);
`embedded` is `window.parent !== window`; `postMessageThrows` says whether
`window.parent.postMessage` raises; `parentCompleteModule` is the read of
line 111. -/
structure Host where
  setItemThrows : Bool
  embedded : Bool
  postMessageThrows : Bool
  parentCompleteModule : ParentRead
  deriving DecidableEq, Repr

/-- A host with which a call on a configured module reaches `return xpEarned`:
`localStorage.setItem` completes and the read of line 111 does not raise. -/
def Host.Returns (host : Host) : Prop :=
  host.setItemThrows = false ∧ host.parentCompleteModule ≠ .securityError

instance (host : Host) : Decidable host.Returns := by
  unfold Host.Returns; infer_instance

/-- Observable actions of `completeModule`, in program order. -/
inductive Effect where
  | consoleLog (module : String) (score : Int)
  | setItem (key : String) (serialised : ProgressState)
  | progressBar (marked : List (String × Int)) (totalXP : JSNumber)
  | toast (module : String) (score : Int) (xpEarned : JSNumber)
  | postMessage (module : String) (score : Int) (xpEarned : JSNumber) (sessionId : String)
  | parentCompleteModule (module : String) (score : Int)
  | consoleError (message : String)
  deriving DecidableEq, Repr

/-- Method `saveState()`: `localStorage.setItem(storageKey, JSON.stringify(this.state))`,
with no `try` around it; the effect carries the state that is serialised. -/
def saveState (host : Host) (st : ProgressState) : Except JSError Effect :=
  if host.setItemThrows then .error .storageError else .ok (.setItem storageKey st)

/-- Method `updateProgressBar()`: the indicators of the configured modules that are marked
completed, each with the score shown, and the text of the XP counter.  For the
four keys of `config.modules` the read `modulesCompleted[module]` can only find
an own record. -/
def updateProgressBar (st : ProgressState) : Effect :=
  .progressBar
    (configModules.filterMap fun e =>
      (ownLookup e.1 st.modulesCompleted.own).map fun r => (e.1, r.score))
    st.totalXP

/-- Method `showCompletionToast(module, score, xpEarned)`: line 271 reads
`this.config.modules[module].icon`, a `TypeError` when the module has no
configuration; otherwise the toast is appended to the document. -/
def showCompletionToast (module : String) (score : Int) (xpEarned : JSNumber) :
    Except JSError (List Effect) :=
  match readConfigModule module with
  | .undefined => .error .typeError
  | _ => .ok [.toast module score xpEarned]

/-- Lines 96-108: the message to an embedding parent, failure caught and logged. -/
def notifyParent (host : Host) (module : String) (score : Int) (xpEarned : JSNumber)
    (sessionId : String) : List Effect :=
  if host.embedded then
    if host.postMessageThrows then
      [.consoleError "[ACE Tracker] Could not communicate with parent:"]
    else [.postMessage module score xpEarned sessionId]
  else []

/-- Lines 111-117: the legacy callback of the parent.  The read of
`window.parent.completeModule` is the condition of the `if`, outside the `try`,
so its `SecurityError` is not caught; a failure of the call itself is caught
and logged. -/
def callParentCompleteModule (host : Host) (module : String) (score : Int) :
    Except JSError (List Effect) :=
  match host.parentCompleteModule with
  | .securityError => .error .securityError
  | .absent => .ok []
  | .callable throws =>
    if throws then .ok [.consoleError "[ACE Tracker] Could not call parent completeModule:"]
    else .ok [.parentCompleteModule module score]

/-- What a call of `completeModule` leaves behind: the state, the effects, and
the value returned or the exception raised. -/
structure Outcome where
  state : ProgressState
  effects : List Effect
  result : Except JSError JSNumber

/-! ## completeModule (lines 72-120) -/

/-- Method `completeModule(module, score)` in state `st`; `now1` and `now2` are the two
readings of `Date.now()` (lines 81 and 86). -/
def completeModule (host : Host) (st : ProgressState) (module : String) (score : Int)
    (now1 now2 : Int) : Outcome :=
  let xpEarned := calculateXP st module score
  let st1 : ProgressState :=
    { st with
      modulesCompleted :=
        st.modulesCompleted.assign module
          { completed := true, score := score, timestamp := now1, xpEarned := xpEarned }
      totalXP := st.totalXP.add xpEarned
      lastActivity := now2 }
  match saveState host st1 with
  | .error e => { state := st1, effects := [Effect.consoleLog module score], result := .error e }
  | .ok saved =>
    let before := [Effect.consoleLog module score, saved, updateProgressBar st1]
    match showCompletionToast module score xpEarned with
    | .error e => { state := st1, effects := before, result := .error e }
    | .ok shown =>
      let notified := before ++ shown ++ notifyParent host module score xpEarned st1.sessionId
      match callParentCompleteModule host module score with
      | .error e => { state := st1, effects := notified, result := .error e }
      | .ok legacy => { state := st1, effects := notified ++ legacy, result := .ok xpEarned }

/-- One call of `completeModule` with its environment. -/
structure Call where
  host : Host
  module : String
  score : Int
  now1 : Int
  now2 : Int
  deriving DecidableEq, Repr

/-- A sequence of `completeModule` calls on the same tracker: the final state and
what each call returned or raised. -/
def runCalls (st : ProgressState) : List Call → ProgressState × List (Except JSError JSNumber)
  | [] => (st, [])
  | c :: rest =>
    let o := completeModule c.host st c.module c.score c.now1 c.now2
    ((runCalls o.state rest).1, o.result :: (runCalls o.state rest).2)

/-! ## getProgressSummary (lines 292-305) -/

/-- Value of `Math.round(num / den)` for a positive `den`. -/
def mathRoundRatio (num den : Int) : Int := (2 * num + den) / (2 * den)

/-- Value of `Object.keys(obj).length`: the number of distinct own keys. -/
def keyCount {κ α : Type} [DecidableEq κ] : List (κ × α) → Nat
  | [] => 0
  | (k, _) :: rest => if (ownLookup k rest).isSome then keyCount rest else keyCount rest + 1

/-- The object returned by `getProgressSummary`. -/
structure ProgressSummary where
  modulesCompleted : Nat
  totalModules : Nat
  percentComplete : Int
  totalXP : JSNumber
  sessionTime : Int
  details : ModulesCompleted
  deriving DecidableEq, Repr

/-- Method `getProgressSummary()` at clock reading `now`: the summary, and the state the
call leaves, which it never assigns. -/
def getProgressSummary (st : ProgressState) (now : Int) : ProgressSummary × ProgressState :=
  let completed := keyCount st.modulesCompleted.own
  let total := keyCount configModules
  let percentage := mathRoundRatio ((completed : Int) * 100) (total : Int)
  ({ modulesCompleted := completed
     totalModules := total
     percentComplete := percentage
     totalXP := st.totalXP
     sessionTime := mathRoundRatio (now - st.sessionStart) 1000
     details := st.modulesCompleted }, st)

/-! ## JSON.parse -/

/-- A value produced by `JSON.parse`.  A number is kept as the decimal it was
written as, `mantissa * 10 ^ exp10`; a string as its UTF-16 code units; an
object as its own properties. -/
inductive JSValue where
  | null
  | bool (b : Bool)
  | num (mantissa : Int) (exp10 : Int)
  | str (units : List Nat)
  | arr (items : List JSValue)
  | obj (props : List (List Nat × JSValue))
  deriving Repr

/-- Result of parsing a value at the head of the input. -/
inductive Parsed (α : Type) where
  | ok (v : α) (rest : List Char)
  | fail
  | outOfFuel
  deriving Repr

/-- Drop leading JSON whitespace. -/
def skipWs : List Char → List Char
  | c :: cs => if c = ' ' ∨ c = '\t' ∨ c = '\n' ∨ c = '\r' then skipWs cs else c :: cs
  | [] => []

/-- Value of a hexadecimal digit. -/
def hexVal (c : Char) : Option Nat :=
  if '0' ≤ c ∧ c ≤ '9' then some (c.toNat - 48)
  else if 'a' ≤ c ∧ c ≤ 'f' then some (c.toNat - 87)
  else if 'A' ≤ c ∧ c ≤ 'F' then some (c.toNat - 55)
  else none

/-- The code unit written as four hexadecimal digits. -/
def hex4 (a b c d : Char) : Option Nat :=
  match hexVal a, hexVal b, hexVal c, hexVal d with
  | some x, some y, some z, some w => some (((x * 16 + y) * 16 + z) * 16 + w)
  | _, _, _, _ => none

/-- UTF-16 code units of a character. -/
def utf16 (c : Char) : List Nat :=
  if c.toNat < 0x10000 then [c.toNat]
  else [0xD800 + (c.toNat - 0x10000) / 0x400, 0xDC00 + (c.toNat - 0x10000) % 0x400]

/-- The rest of a string literal after its opening quote: the code units up to
the closing quote, and what follows it. -/
def scanString : List Nat → List Char → Option (List Nat × List Char)
  | _, [] => none
  | acc, '\x22' :: rest => some (acc, rest)
  | _, ['\x5c'] => none
  | acc, '\x5c' :: e :: rest =>
    if e = '\x22' then scanString (acc ++ [0x22]) rest
    else if e = '\x5c' then scanString (acc ++ [0x5c]) rest
    else if e = '/' then scanString (acc ++ [0x2f]) rest
    else if e = 'b' then scanString (acc ++ [8]) rest
    else if e = 'f' then scanString (acc ++ [12]) rest
    else if e = 'n' then scanString (acc ++ [10]) rest
    else if e = 'r' then scanString (acc ++ [13]) rest
    else if e = 't' then scanString (acc ++ [9]) rest
    else if e = 'u' then
      match rest with
      | a :: b :: c :: d :: rest' =>
        match hex4 a b c d with
        | some u => scanString (acc ++ [u]) rest'
        | none => none
      | _ => none
    else none
  | acc, c :: rest => if c.toNat < 0x20 then none else scanString (acc ++ utf16 c) rest

/-- Whether the character is a decimal digit. -/
def isDigit (c : Char) : Bool := decide ('0' ≤ c ∧ c ≤ '9')

/-- The leading decimal digits of the input, and what follows them. -/
def takeDigits : List Char → List Nat × List Char
  | c :: cs =>
    if isDigit c then ((c.toNat - 48) :: (takeDigits cs).1, (takeDigits cs).2) else ([], c :: cs)
  | [] => ([], [])

/-- The number written by a list of decimal digits. -/
def digitsValue (ds : List Nat) : Nat := ds.foldl (fun n d => 10 * n + d) 0

/-- An optional fraction part: its digits. -/
def scanFraction : List Char → Option (List Nat × List Char)
  | '.' :: cs =>
    match takeDigits cs with
    | ([], _) => none
    | (ds, rest) => some (ds, rest)
  | cs => some ([], cs)

/-- The digits of an exponent, with the sign already read. -/
def scanExponentDigits (negative : Bool) (cs : List Char) : Option (Int × List Char) :=
  match takeDigits cs with
  | ([], _) => none
  | (es, rest) => some (if negative then -(digitsValue es : Int) else (digitsValue es : Int), rest)

/-- An optional exponent part: its value. -/
def scanExponent : List Char → Option (Int × List Char)
  | c :: cs =>
    if c = 'e' ∨ c = 'E' then
      match cs with
      | '-' :: ds => scanExponentDigits true ds
      | '+' :: ds => scanExponentDigits false ds
      | ds => scanExponentDigits false ds
    else some (0, c :: cs)
  | [] => some (0, [])

/-- A number without its sign: integer part without a superfluous leading zero,
optional fraction, optional exponent. -/
def scanUnsigned (cs : List Char) : Option (Nat × Int × List Char) :=
  match takeDigits cs with
  | ([], _) => none
  | (d :: ds, rest) =>
    if d = 0 ∧ ds ≠ [] then none
    else
      match scanFraction rest with
      | none => none
      | some (fs, rest1) =>
        match scanExponent rest1 with
        | none => none
        | some (e, rest2) => some (digitsValue (d :: ds ++ fs), e - fs.length, rest2)

/-- A JSON number: mantissa, decimal exponent, and what follows. -/
def scanNumber : List Char → Option (Int × Int × List Char)
  | '-' :: cs => (scanUnsigned cs).map fun r => (-(r.1 : Int), r.2.1, r.2.2)
  | cs => (scanUnsigned cs).map fun r => ((r.1 : Int), r.2.1, r.2.2)

mutual
/-- A JSON value at the head of the input. -/
def parseValue : Nat → List Char → Parsed JSValue
  | 0, _ => .outOfFuel
  | fuel + 1, input =>
    match skipWs input with
    | 'n' :: 'u' :: 'l' :: 'l' :: rest => .ok .null rest
    | 't' :: 'r' :: 'u' :: 'e' :: rest => .ok (.bool true) rest
    | 'f' :: 'a' :: 'l' :: 's' :: 'e' :: rest => .ok (.bool false) rest
    | '\x22' :: cs =>
      match scanString [] cs with
      | some (s, rest) => .ok (.str s) rest
      | none => .fail
    | '[' :: cs =>
      match skipWs cs with
      | ']' :: rest => .ok (.arr []) rest
      | _ =>
        match parseValue fuel cs with
        | .ok v rest => parseArrayTail fuel [v] rest
        | .fail => .fail
        | .outOfFuel => .outOfFuel
    | '\x7b' :: cs =>
      match skipWs cs with
      | '\x7d' :: rest => .ok (.obj []) rest
      | members => parseMember fuel [] members
    | cs =>
      match scanNumber cs with
      | some (m, e, rest) => .ok (.num m e) rest
      | none => .fail
/-- The rest of an array after an element. -/
def parseArrayTail : Nat → List JSValue → List Char → Parsed JSValue
  | 0, _, _ => .outOfFuel
  | fuel + 1, acc, input =>
    match skipWs input with
    | ']' :: rest => .ok (.arr acc) rest
    | ',' :: cs =>
      match parseValue fuel cs with
      | .ok v rest => parseArrayTail fuel (acc ++ [v]) rest
      | .fail => .fail
      | .outOfFuel => .outOfFuel
    | _ => .fail
/-- A member of an object and the members after it; a repeated key keeps its
first position and takes the last value. -/
def parseMember : Nat → List (List Nat × JSValue) → List Char → Parsed JSValue
  | 0, _, _ => .outOfFuel
  | fuel + 1, acc, input =>
    match skipWs input with
    | '\x22' :: ks =>
      match scanString [] ks with
      | some (k, afterKey) =>
        match skipWs afterKey with
        | ':' :: vs =>
          match parseValue fuel vs with
          | .ok v rest =>
            match skipWs rest with
            | '\x7d' :: rest' => .ok (.obj (upsert k v acc)) rest'
            | ',' :: more => parseMember fuel (upsert k v acc) more
            | _ => .fail
          | .fail => .fail
          | .outOfFuel => .outOfFuel
        | _ => .fail
      | none => .fail
    | _ => .fail
end

/-- A parse result that did not run out of fuel and, on success, left strictly
less input than it was given. -/
def Parsed.Consumes (input : List Char) (r : Parsed JSValue) : Prop :=
  r ≠ .outOfFuel ∧ ∀ v rest, r = .ok v rest → rest.length < input.length

/-- Built-in `JSON.parse(text)`: the value, or a `SyntaxError` when `text` is not one JSON
value surrounded by whitespace.  The fuel exceeds the length of the text, which
every nested call shortens, so it never runs out (`parseValue_fuel`). -/
def jsonParse (text : String) : Except JSError JSValue :=
  match parseValue (text.length + 1) text.toList with
  | .ok v rest => if skipWs rest = [] then .ok v else .error .invalidJSON
  | _ => .error .invalidJSON

/-! ## loadState and generateSessionId (lines 29-47) -/

/-- Method `generateSessionId()`: `now` is the reading of `Date.now()` and `suffix` the
text `Math.random().toString(36).substr(2, 9)`. -/
def generateSessionId (now : Int) (suffix : String) : String :=
  "session_" ++ toString now ++ "_" ++ suffix

/-- The object literal of lines 31-38. -/
def freshState (sessionId : String) (sessionStart lastActivity : Int) : ProgressState :=
  { sessionId := sessionId
    sessionStart := sessionStart
    modulesCompleted := { own := [], proto := none }
    totalXP := .int 0
    currentStreak := 0
    lastActivity := lastActivity }

/-- What `loadState` returns: the freshly built state, or the value that
`JSON.parse` produced from the stored text, as it is. -/
inductive LoadedState where
  | fresh (st : ProgressState)
  | stored (v : JSValue)

/-- Method `loadState()`.  `saved` is `localStorage.getItem(storageKey)` (`none` for
`null`); a missing or empty text is falsy.  `now0` and `suffix` feed
`generateSessionId`, `now1` and `now2` are the readings of `Date.now()` for
`sessionStart` and `lastActivity`. -/
def loadState (saved : Option String) (now0 : Int) (suffix : String) (now1 now2 : Int) :
    Except JSError LoadedState :=
  match saved with
  | some text =>
    if text ≠ "" then (jsonParse text).map LoadedState.stored
    else .ok (.fresh (freshState (generateSessionId now0 suffix) now1 now2))
  | none => .ok (.fresh (freshState (generateSessionId now0 suffix) now1 now2))

/-! ## Reference definition of the XP rule, from the specification -/

/-- Round to the nearest integer, halves up. -/
def roundHalfUp (q : ℚ) : Int := ⌊q + 1 / 2⌋

/-- Base XP per module: classroom 25, flashcards 15, practice 30, jeopardy 35. -/
def specBaseXP (module : String) : Option ℚ :=
  if module = "classroom" then some 25
  else if module = "flashcards" then some 15
  else if module = "practice" then some 30
  else if module = "jeopardy" then some 35
  else none

/-- Ordered, first-match thresholds on the score. -/
def specMultiplier (score : Int) : ℚ :=
  if score = 100 then 2
  else if score ≥ 90 then 3 / 2
  else if score ≥ 80 then 6 / 5
  else if score ≥ 70 then 1
  else 1 / 2

/-- The reference XP: `roundHalfUp (baseXP * multiplier + bonus)` with a bonus
of 10 exactly when there is no prior record, and 0 for an unrecognised module. -/
def specXP (module : String) (score : Int) (alreadyCompletedBefore : Bool) : Int :=
  match specBaseXP module with
  | some b => roundHalfUp (b * specMultiplier score + (if alreadyCompletedBefore then 0 else 10))
  | none => 0

/-- The four module identifiers of `config.modules`. -/
def IsDefinedModule (module : String) : Prop :=
  module = "classroom" ∨ module = "flashcards" ∨ module = "practice" ∨ module = "jeopardy"

instance (module : String) : Decidable (IsDefinedModule module) := by
  unfold IsDefinedModule; infer_instance

/-- Whether `modulesCompleted` holds an own record for `module`. -/
def hasRecord (st : ProgressState) (module : String) : Bool :=
  (ownLookup module st.modulesCompleted.own).isSome

/-! ## Theorems -/

theorem roundHalfUp_tenths (v : Int) : roundHalfUp ((v : ℚ) / 10) = mathRoundTenths v := by
  unfold roundHalfUp mathRoundTenths
  rw [Int.floor_eq_iff]
  have h1 := Int.emod_add_ediv (v + 5) 10
  have h2 := Int.emod_nonneg (v + 5) (by norm_num : (10 : Int) ≠ 0)
  have h3 := Int.emod_lt_of_pos (v + 5) (by norm_num : (0 : Int) < 10)
  have hv : (v : ℚ) = 10 * (((v + 5) / 10 : Int) : ℚ) + (((v + 5) % 10 : Int) : ℚ) - 5 := by
    have : ((v + 5 : Int) : ℚ) = (((v + 5) % 10 + 10 * ((v + 5) / 10) : Int) : ℚ) := by rw [h1]
    push_cast at this ⊢
    linarith
  have h2q : (0 : ℚ) ≤ (((v + 5) % 10 : Int) : ℚ) := by exact_mod_cast h2
  have h3q : (((v + 5) % 10 : Int) : ℚ) ≤ 9 := by
    have : (v + 5) % 10 ≤ 9 := by omega
    exact_mod_cast this
  constructor
  · rw [hv]; linarith
  · rw [hv]; linarith

theorem readConfigModule_defined {module : String} (h : IsDefinedModule module) :
    ∃ cfg, readConfigModule module = .own cfg ∧ specBaseXP module = some (cfg.baseXP : ℚ) := by
  rcases h with h | h | h | h <;> subst h
  · exact ⟨⟨"Classroom", 25, "📚"⟩, by decide, by simp [specBaseXP]⟩
  · exact ⟨⟨"Flashcards", 15, "🎴"⟩, by decide, by simp [specBaseXP]⟩
  · exact ⟨⟨"Practice Test", 30, "✍️"⟩, by decide, by simp [specBaseXP]⟩
  · exact ⟨⟨"Jeopardy", 35, "🎯"⟩, by decide, by simp [specBaseXP]⟩

theorem truthyAt_defined (mc : ModulesCompleted) {module : String} (h : IsDefinedModule module) :
    mc.truthyAt module = (ownLookup module mc.own).isSome := by
  unfold ModulesCompleted.truthyAt
  cases hl : ownLookup module mc.own with
  | some r => rfl
  | none =>
    have hf : ∀ r : CompletionRecord, r.fieldTruthy module = none := by
      intro r
      rcases h with h | h | h | h <;> subst h <;> simp [CompletionRecord.fieldTruthy]
    have hp : module ∉ objectPrototypeKeys := by
      rcases h with h | h | h | h <;> subst h <;> decide
    cases hpr : mc.proto with
    | none => simp [hp]
    | some r => simp [hf r, hp]

theorem specMultiplier_tenths (score : Int) :
    specMultiplier score = (multiplierFor score : ℚ) / 10 := by
  unfold specMultiplier multiplierFor xpMultipliers
  split_ifs <;> norm_num

theorem calculateXP_defined (st : ProgressState) {module : String} (score : Int)
    (h : IsDefinedModule module) :
    calculateXP st module score = .int (specXP module score (hasRecord st module)) := by
  obtain ⟨cfg, hr, hb⟩ := readConfigModule_defined h
  have ht := truthyAt_defined st.modulesCompleted h
  unfold calculateXP specXP
  rw [hr, hb]
  simp only [ConfigRead.baseXP]
  congr 1
  rw [← roundHalfUp_tenths, specMultiplier_tenths]
  congr 1
  unfold firstTimeBonus hasRecord
  rw [ht]
  cases (ownLookup module st.modulesCompleted.own).isSome <;> simp <;> ring

theorem calculateXP_defined_tenths (st : ProgressState) {module : String} (score : Int)
    (h : IsDefinedModule module) :
    ∃ cfg, readConfigModule module = .own cfg ∧ 0 ≤ cfg.baseXP ∧
      calculateXP st module score =
        .int (mathRoundTenths (cfg.baseXP * multiplierFor score + 10 * firstTimeBonus st module)) := by
  have key : ∀ cfg, readConfigModule module = .own cfg →
      calculateXP st module score =
        .int (mathRoundTenths (cfg.baseXP * multiplierFor score + 10 * firstTimeBonus st module)) := by
    intro cfg hr
    unfold calculateXP
    rw [hr]
    rfl
  rcases h with h | h | h | h <;> subst h
  · exact ⟨⟨"Classroom", 25, "📚"⟩, by decide, by decide, key _ (by decide)⟩
  · exact ⟨⟨"Flashcards", 15, "🎴"⟩, by decide, by decide, key _ (by decide)⟩
  · exact ⟨⟨"Practice Test", 30, "✍️"⟩, by decide, by decide, key _ (by decide)⟩
  · exact ⟨⟨"Jeopardy", 35, "🎯"⟩, by decide, by decide, key _ (by decide)⟩

theorem multiplierFor_mono {s1 s2 : Int} (h12 : s1 ≤ s2) (h100 : s2 ≤ 100) :
    multiplierFor s1 ≤ multiplierFor s2 := by
  unfold multiplierFor xpMultipliers
  simp only
  split_ifs <;> omega

theorem multiplierFor_pos (s : Int) : 0 < multiplierFor s := by
  unfold multiplierFor xpMultipliers
  simp only
  split_ifs <;> omega

theorem firstTimeBonus_nonneg (st : ProgressState) (module : String) :
    0 ≤ firstTimeBonus st module := by
  unfold firstTimeBonus
  split_ifs <;> omega

theorem ownLookup_cons {κ α : Type} [DecidableEq κ] (key k : κ) (w : α) (rest : List (κ × α)) :
    ownLookup key ((k, w) :: rest) = if k = key then some w else ownLookup key rest := rfl

theorem ownLookup_map_replace {κ α : Type} [DecidableEq κ] (key : κ) (v : α) (l : List (κ × α)) :
    ownLookup key (l.map (fun e => if e.1 = key then (key, v) else e)) =
      (ownLookup key l).map (fun _ => v) := by
  induction l with
  | nil => rfl
  | cons e rest ih =>
    obtain ⟨k, w⟩ := e
    rw [List.map_cons]
    by_cases hk : k = key
    · rw [if_pos (show (k, w).1 = key from hk), ownLookup_cons, if_pos rfl, ownLookup_cons,
        if_pos hk]
      rfl
    · rw [if_neg (show ¬ (k, w).1 = key from hk), ownLookup_cons, if_neg hk, ownLookup_cons,
        if_neg hk, ih]

theorem ownLookup_map_replace_other {κ α : Type} [DecidableEq κ] {key other : κ} (v : α)
    (l : List (κ × α)) (hne : other ≠ key) :
    ownLookup other (l.map (fun e => if e.1 = key then (key, v) else e)) = ownLookup other l := by
  induction l with
  | nil => rfl
  | cons e rest ih =>
    obtain ⟨k, w⟩ := e
    rw [List.map_cons]
    by_cases hk : k = key
    · have hko : ¬ key = other := fun hh => hne hh.symm
      have hko' : ¬ k = other := by rw [hk]; exact hko
      rw [if_pos (show (k, w).1 = key from hk), ownLookup_cons, if_neg hko, ownLookup_cons,
        if_neg hko', ih]
    · rw [if_neg (show ¬ (k, w).1 = key from hk), ownLookup_cons, ownLookup_cons, ih]

theorem ownLookup_append_single {κ α : Type} [DecidableEq κ] (other key : κ) (v : α)
    (l : List (κ × α)) :
    ownLookup other (l ++ [(key, v)]) =
      match ownLookup other l with
      | some w => some w
      | none => if key = other then some v else none := by
  induction l with
  | nil => rfl
  | cons e rest ih =>
    obtain ⟨k, w⟩ := e
    rw [List.cons_append, ownLookup_cons, ownLookup_cons]
    by_cases hk : k = other
    · rw [if_pos hk, if_pos hk]
    · rw [if_neg hk, if_neg hk, ih]

theorem ownLookup_upsert_self {κ α : Type} [DecidableEq κ] (key : κ) (v : α) (l : List (κ × α)) :
    ownLookup key (upsert key v l) = some v := by
  unfold upsert
  cases h : ownLookup key l with
  | some w => rw [Option.isSome_some, if_pos rfl, ownLookup_map_replace, h]; rfl
  | none =>
    rw [Option.isSome_none, if_neg (by simp), ownLookup_append_single, h]
    exact if_pos rfl

theorem ownLookup_upsert_other {κ α : Type} [DecidableEq κ] {key other : κ} (v : α)
    (l : List (κ × α)) (hne : other ≠ key) :
    ownLookup other (upsert key v l) = ownLookup other l := by
  unfold upsert
  split_ifs with h
  · exact ownLookup_map_replace_other v l hne
  · rw [ownLookup_append_single]
    cases ownLookup other l with
    | some w => rfl
    | none => exact if_neg (fun hh => hne hh.symm)

theorem ownLookup_isSome_iff {κ α : Type} [DecidableEq κ] (key : κ) (l : List (κ × α)) :
    (ownLookup key l).isSome = true ↔ key ∈ l.map Prod.fst := by
  induction l with
  | nil => simp [ownLookup]
  | cons e rest ih =>
    obtain ⟨k, w⟩ := e
    by_cases hk : k = key
    · simp [ownLookup, hk]
    · have hk' : ¬ key = k := fun hh => hk hh.symm
      simp [ownLookup, hk, hk', ih]

theorem keyCount_eq_card {κ α : Type} [DecidableEq κ] (l : List (κ × α)) :
    keyCount l = (l.map Prod.fst).toFinset.card := by
  induction l with
  | nil => rfl
  | cons e rest ih =>
    obtain ⟨k, w⟩ := e
    simp only [keyCount, List.map_cons, List.toFinset_cons]
    by_cases hk : (ownLookup k rest).isSome = true
    · have hmem : k ∈ (rest.map Prod.fst).toFinset := by
        rw [List.mem_toFinset]; exact (ownLookup_isSome_iff k rest).1 hk
      rw [if_pos hk, Finset.insert_eq_of_mem hmem, ih]
    · have hmem : k ∉ (rest.map Prod.fst).toFinset := by
        rw [List.mem_toFinset]; exact fun hh => hk ((ownLookup_isSome_iff k rest).2 hh)
      rw [if_neg hk, Finset.card_insert_of_not_mem hmem, ih]

theorem completeModule_state (host : Host) (st : ProgressState) (module : String) (score : Int)
    (now1 now2 : Int) :
    (completeModule host st module score now1 now2).state =
      { st with
        modulesCompleted :=
          st.modulesCompleted.assign module
            { completed := true, score := score, timestamp := now1,
              xpEarned := calculateXP st module score }
        totalXP := st.totalXP.add (calculateXP st module score)
        lastActivity := now2 } := by
  unfold completeModule
  simp only
  split
  · rfl
  · split
    · rfl
    · split <;> rfl

theorem readConfigModule_ne_undefined {module : String} (h : IsDefinedModule module) :
    readConfigModule module ≠ .undefined := by
  obtain ⟨cfg, hr, _⟩ := readConfigModule_defined h
  rw [hr]
  exact fun hh => ConfigRead.noConfusion hh

theorem showCompletionToast_of_configured {module : String} (score : Int) (xp : JSNumber)
    (h : readConfigModule module ≠ .undefined) :
    showCompletionToast module score xp = .ok [.toast module score xp] := by
  unfold showCompletionToast
  cases hr : readConfigModule module with
  | undefined => exact absurd hr h
  | own cfg => rfl
  | inherited => rfl

theorem callParentCompleteModule_of_readable {host : Host} (module : String) (score : Int)
    (h : host.parentCompleteModule ≠ .securityError) :
    ∃ legacy, callParentCompleteModule host module score = .ok legacy := by
  unfold callParentCompleteModule
  cases hp : host.parentCompleteModule with
  | securityError => exact absurd hp h
  | absent => exact ⟨_, rfl⟩
  | callable throws => cases throws <;> exact ⟨_, rfl⟩

theorem completeModule_result_of_returning (host : Host) (st : ProgressState) {module : String}
    (score now1 now2 : Int) (h : readConfigModule module ≠ .undefined) (hh : host.Returns) :
    (completeModule host st module score now1 now2).result = .ok (calculateXP st module score) := by
  obtain ⟨hs, hp⟩ := hh
  obtain ⟨legacy, hl⟩ := callParentCompleteModule_of_readable module score hp
  unfold completeModule saveState
  simp only
  rw [hs, showCompletionToast_of_configured score _ h, hl]
  rfl

theorem completeModule_result_ok {host : Host} {st : ProgressState} {module : String}
    {score now1 now2 : Int} {x : JSNumber}
    (h : (completeModule host st module score now1 now2).result = .ok x) :
    x = calculateXP st module score ∧ host.Returns ∧ readConfigModule module ≠ .undefined := by
  unfold completeModule saveState at h
  simp only at h
  cases hs : host.setItemThrows with
  | true =>
    rw [hs] at h
    exact Except.noConfusion h
  | false =>
    rw [hs] at h
    simp only [Bool.false_eq_true, if_false] at h
    by_cases hr : readConfigModule module = .undefined
    · unfold showCompletionToast at h
      rw [hr] at h
      exact Except.noConfusion h
    · rw [showCompletionToast_of_configured score _ hr] at h
      simp only at h
      by_cases hp : host.parentCompleteModule = .securityError
      · unfold callParentCompleteModule at h
        rw [hp] at h
        exact Except.noConfusion h
      · obtain ⟨legacy, hl⟩ := callParentCompleteModule_of_readable module score hp
        rw [hl] at h
        simp only at h
        injection h with h
        exact ⟨h.symm, ⟨hs, hp⟩, hr⟩

theorem completeModule_of_unconfigured (host : Host) (st : ProgressState) {module : String}
    (score now1 now2 : Int) (h : readConfigModule module = .undefined)
    (hs : host.setItemThrows = false) :
    completeModule host st module score now1 now2 =
      { state :=
          { st with
            modulesCompleted :=
              st.modulesCompleted.assign module
                { completed := true, score := score, timestamp := now1, xpEarned := .int 0 }
            totalXP := st.totalXP.add (.int 0)
            lastActivity := now2 }
        effects :=
          [.consoleLog module score,
           .setItem storageKey
            { st with
              modulesCompleted :=
                st.modulesCompleted.assign module
                  { completed := true, score := score, timestamp := now1, xpEarned := .int 0 }
              totalXP := st.totalXP.add (.int 0)
              lastActivity := now2 },
           updateProgressBar
            { st with
              modulesCompleted :=
                st.modulesCompleted.assign module
                  { completed := true, score := score, timestamp := now1, xpEarned := .int 0 }
              totalXP := st.totalXP.add (.int 0)
              lastActivity := now2 }]
        result := .error .typeError } := by
  have hx : calculateXP st module score = .int 0 := by
    unfold calculateXP
    rw [h]
  unfold completeModule saveState showCompletionToast
  rw [hx, h, hs]
  rfl

theorem assign_own_of_defined (mc : ModulesCompleted) {module : String} (r : CompletionRecord)
    (h : IsDefinedModule module) :
    (mc.assign module r).own = upsert module r mc.own := by
  have hne : module ≠ "__proto__" := by
    rcases h with h | h | h | h <;> subst h <;> decide
  unfold ModulesCompleted.assign
  rw [if_neg (fun hh => hne hh.1)]

theorem ownLookup_assign_other (mc : ModulesCompleted) {module other : String}
    (r : CompletionRecord) (hne : other ≠ module) :
    ownLookup other (mc.assign module r).own = ownLookup other mc.own := by
  unfold ModulesCompleted.assign
  split_ifs
  · rfl
  · exact ownLookup_upsert_other r mc.own hne

theorem droppedBits_of_lt (fuel m : Nat) (h : m < 2 ^ 53) : droppedBits fuel m = 0 := by
  cases fuel with
  | zero => rfl
  | succ f =>
    unfold droppedBits
    rw [if_pos h]

theorem droppedBits_bound (fuel : Nat) :
    ∀ m : Nat, m < 2 ^ (fuel + 53) → m / 2 ^ droppedBits fuel m < 2 ^ 53 := by
  induction fuel with
  | zero =>
    intro m h
    simpa [droppedBits] using h
  | succ f ih =>
    intro m h
    unfold droppedBits
    split_ifs with hm
    · simpa using hm
    · have h2 : m / 2 < 2 ^ (f + 53) := by
        rw [Nat.div_lt_iff_lt_mul (by norm_num)]
        calc m < 2 ^ (f + 1 + 53) := h
          _ = 2 ^ (f + 53) * 2 := by ring
      have := ih (m / 2) h2
      rwa [pow_succ, mul_comm, ← Nat.div_div_eq_div_mul]

theorem droppedBits_minimal (fuel : Nat) :
    ∀ (m e : Nat), droppedBits fuel m = e + 1 → 2 ^ 53 ≤ m / 2 ^ e := by
  induction fuel with
  | zero =>
    intro m e h
    simp [droppedBits] at h
  | succ f ih =>
    intro m e h
    unfold droppedBits at h
    split_ifs at h with hm
    have h' : droppedBits f (m / 2) = e := by omega
    cases e with
    | zero => simpa using Nat.le_of_not_lt hm
    | succ e' =>
      have := ih (m / 2) e' h'
      have e : m / 2 ^ (e' + 1) = m / 2 / 2 ^ e' := by
        rw [pow_succ, mul_comm, ← Nat.div_div_eq_div_mul]
      rw [e]
      exact this

/-- The fuel `JSNumber.ofInt` gives `droppedBits` suffices: the exponent found
leaves a mantissa below `2 ^ 53`. -/
theorem droppedBits_self (m : Nat) : m / 2 ^ droppedBits m m < 2 ^ 53 :=
  droppedBits_bound m m
    (lt_of_lt_of_le (Nat.lt_two_pow m)
      (Nat.pow_le_pow_right (by norm_num) (Nat.le_add_right m 53)))

theorem JSNumber.ofInt_of_range (n : Int) (h1 : -(2 ^ 53) ≤ n) (h2 : n ≤ 2 ^ 53) :
    JSNumber.ofInt n = .int n := by
  by_cases hlt : n.natAbs < 2 ^ 53
  · have he : droppedBits n.natAbs n.natAbs = 0 := droppedBits_of_lt _ _ hlt
    have hq : roundMantissa n.natAbs 0 = n.natAbs := by
      unfold roundMantissa
      rw [pow_zero, Nat.mod_one, Nat.div_one]
      simp
    unfold JSNumber.ofInt
    simp only [he, hq]
    rw [if_neg (by omega)]
    congr 1
    split_ifs <;> omega
  · have : n = 2 ^ 53 ∨ n = -(2 ^ 53) := by omega
    rcases this with h | h <;> subst h <;> decide

theorem JSNumber.add_int_of_range (a b : Int) (h1 : -(2 ^ 53) ≤ a + b) (h2 : a + b ≤ 2 ^ 53) :
    (JSNumber.int a).add (.int b) = .int (a + b) :=
  JSNumber.ofInt_of_range (a + b) h1 h2

theorem specXP_first_eq_repeat_add_ten {module : String} (score : Int)
    (h : IsDefinedModule module) :
    specXP module score false = specXP module score true + 10 := by
  obtain ⟨cfg, _, hb⟩ := readConfigModule_defined h
  unfold specXP roundHalfUp
  rw [hb]
  simp only [Bool.false_eq_true, if_false, if_true, add_zero]
  have e : (cfg.baseXP : ℚ) * specMultiplier score + 10 + 1 / 2 =
      ((cfg.baseXP : ℚ) * specMultiplier score + 1 / 2) + ((10 : Int) : ℚ) := by
    push_cast; ring
  rw [e, Int.floor_add_int]

theorem specXP_nonneg (module : String) (score : Int) (before : Bool) :
    0 ≤ specXP module score before := by
  unfold specXP
  cases hb : specBaseXP module with
  | none => exact le_refl _
  | some b =>
    have hb0 : (0 : ℚ) ≤ b := by
      unfold specBaseXP at hb
      split_ifs at hb <;> simp at hb <;> rw [← hb] <;> norm_num
    have hm : (0 : ℚ) ≤ specMultiplier score := by
      unfold specMultiplier
      split_ifs <;> norm_num
    simp only
    unfold roundHalfUp
    apply Int.floor_nonneg.2
    have := mul_nonneg hb0 hm
    cases before <;> simp <;> linarith

theorem specXP_le (module : String) (score : Int) (before : Bool) :
    specXP module score before ≤ 80 := by
  unfold specXP
  cases hb : specBaseXP module with
  | none => norm_num
  | some b =>
    have hb0 : (0 : ℚ) ≤ b ∧ b ≤ 35 := by
      unfold specBaseXP at hb
      split_ifs at hb <;> simp at hb <;> rw [← hb] <;> norm_num
    have hm : (0 : ℚ) ≤ specMultiplier score ∧ specMultiplier score ≤ 2 := by
      unfold specMultiplier
      split_ifs <;> norm_num
    simp only
    unfold roundHalfUp
    have hprod : b * specMultiplier score ≤ 35 * 2 :=
      mul_le_mul hb0.2 hm.2 hm.1 (by norm_num)
    have hlt : b * specMultiplier score + (if before = true then (0 : ℚ) else 10) + 1 / 2 <
        ((81 : Int) : ℚ) := by
      cases before <;> simp <;> linarith
    have := Int.floor_lt.2 hlt
    omega

theorem runCalls_totalXP (calls : List Call) :
    ∀ (st : ProgressState) (total : Int), st.totalXP = .int total → 0 ≤ total →
      total + 80 * (calls.length : Int) ≤ 2 ^ 53 →
      (∀ c ∈ calls, IsDefinedModule c.module ∧ c.host.Returns) →
      ∃ xs : List Int,
        (runCalls st calls).2 = xs.map (fun x => Except.ok (JSNumber.int x)) ∧
        (runCalls st calls).1.totalXP = .int (total + xs.sum) := by
  induction calls with
  | nil =>
    intro st total ht _ _ _
    exact ⟨[], rfl, by simpa [runCalls] using ht⟩
  | cons c rest ih =>
    intro st total ht h0 hbound hdef
    obtain ⟨hc, hret⟩ := hdef c (List.mem_cons_self _ _)
    have hx := calculateXP_defined st c.score hc
    have hres := completeModule_result_of_returning c.host st c.score c.now1 c.now2
      (readConfigModule_ne_undefined hc) hret
    have hst := completeModule_state c.host st c.module c.score c.now1 c.now2
    have hx0 := specXP_nonneg c.module c.score (hasRecord st c.module)
    have hx80 := specXP_le c.module c.score (hasRecord st c.module)
    simp only [List.length_cons, Nat.cast_add, Nat.cast_one] at hbound
    have htot : (completeModule c.host st c.module c.score c.now1 c.now2).state.totalXP =
        .int (total + specXP c.module c.score (hasRecord st c.module)) := by
      rw [hst, hx, ht]
      exact JSNumber.add_int_of_range _ _ (by omega) (by omega)
    obtain ⟨xs, h1, h2⟩ := ih _ _ htot (by omega) (by omega)
      (fun d hd => hdef d (List.mem_cons_of_mem _ hd))
    refine ⟨specXP c.module c.score (hasRecord st c.module) :: xs, ?_, ?_⟩
    · simp only [runCalls, List.map_cons]
      rw [h1, hres, hx]
    · simp only [runCalls, List.sum_cons]
      rw [h2, add_assoc]

/-- C10.  XP is monotone in the score on the valid range: for a defined module and
a fixed state, scores `0 ≤ s1 ≤ s2 ≤ 100` earn integer amounts `x1 ≤ x2`. -/
theorem calculateXP_monotone_in_score (st : ProgressState) (module : String) (s1 s2 : Int)
    (hm : IsDefinedModule module) (_h0 : 0 ≤ s1) (h12 : s1 ≤ s2) (h100 : s2 ≤ 100) :
    ∃ x1 x2 : Int, calculateXP st module s1 = .int x1 ∧ calculateXP st module s2 = .int x2 ∧
      x1 ≤ x2 := by
  obtain ⟨cfg, hr, hb, hx1⟩ := calculateXP_defined_tenths st s1 hm
  obtain ⟨cfg', hr', _, hx2⟩ := calculateXP_defined_tenths st s2 hm
  have hcfg : cfg' = cfg := by
    rw [hr] at hr'
    exact (ConfigRead.own.inj hr').symm
  subst hcfg
  refine ⟨_, _, hx1, hx2, ?_⟩
  unfold mathRoundTenths
  apply Int.ediv_le_ediv (by norm_num)
  have := Int.mul_le_mul_of_nonneg_left (multiplierFor_mono h12 h100) hb
  omega

theorem calculateXP_monotone_in_score_witness :
    ∃ x1 x2 : Int, calculateXP (freshState "session_1_abc" 1 1) "flashcards" 65 = .int x1 ∧
      calculateXP (freshState "session_1_abc" 1 1) "flashcards" 95 = .int x2 ∧ x1 ≤ x2 :=
  calculateXP_monotone_in_score (freshState "session_1_abc" 1 1) "flashcards" 65 95
    (by decide) (by decide) (by decide) (by decide)

theorem assign_proto_of_ne (mc : ModulesCompleted) {module : String} (r : CompletionRecord)
    (hne : module ≠ "__proto__") : (mc.assign module r).proto = mc.proto := by
  unfold ModulesCompleted.assign
  rw [if_neg (fun hh => hne hh.1)]

/-- C9.  Frame of `completeModule`: whatever the module and the score, the call
leaves `sessionId`, `sessionStart` and `currentStreak` as they were, the record
stored for every other module is the one stored before, and the prototype link
of `modulesCompleted` is touched only by a call whose module is `__proto__`. -/
theorem completeModule_frame (host : Host) (st : ProgressState) (module : String)
    (score now1 now2 : Int) :
    (completeModule host st module score now1 now2).state.sessionId = st.sessionId ∧
    (completeModule host st module score now1 now2).state.sessionStart = st.sessionStart ∧
    (completeModule host st module score now1 now2).state.currentStreak = st.currentStreak ∧
    (∀ other : String, other ≠ module →
      ownLookup other (completeModule host st module score now1 now2).state.modulesCompleted.own =
        ownLookup other st.modulesCompleted.own) ∧
    (module ≠ "__proto__" →
      (completeModule host st module score now1 now2).state.modulesCompleted.proto =
        st.modulesCompleted.proto) := by
  rw [completeModule_state]
  exact ⟨rfl, rfl, rfl, fun other hne => ownLookup_assign_other _ _ hne,
    fun hne => assign_proto_of_ne _ _ hne⟩

theorem mathRoundRatio_quarter (c : Int) : mathRoundRatio (c * 100) 4 = 25 * c := by
  unfold mathRoundRatio
  omega

theorem roundHalfUp_int (n : Int) : roundHalfUp (n : ℚ) = n := by
  unfold roundHalfUp
  rw [Int.floor_eq_iff]
  constructor <;> norm_num

/-- C8.  `getProgressSummary` reports four modules in total, the number of distinct
keys of `state.modulesCompleted`, the state's `totalXP`, and
`percentComplete = round (100 * completed / total)`, which is 25 for one
completed module and 50 for two; the state after the call is the state before. -/
theorem getProgressSummary_fields (st : ProgressState) (now : Int) :
    (getProgressSummary st now).1.totalModules = 4 ∧
    (getProgressSummary st now).1.modulesCompleted =
      (st.modulesCompleted.own.map Prod.fst).toFinset.card ∧
    (getProgressSummary st now).1.totalXP = st.totalXP ∧
    (getProgressSummary st now).1.percentComplete =
      roundHalfUp (100 * ((getProgressSummary st now).1.modulesCompleted : ℚ) /
        ((getProgressSummary st now).1.totalModules : ℚ)) ∧
    ((getProgressSummary st now).1.modulesCompleted = 1 →
      (getProgressSummary st now).1.percentComplete = 25) ∧
    ((getProgressSummary st now).1.modulesCompleted = 2 →
      (getProgressSummary st now).1.percentComplete = 50) ∧
    (getProgressSummary st now).2 = st := by
  have htotal : keyCount configModules = 4 := by decide
  have hpc : (getProgressSummary st now).1.percentComplete =
      25 * (keyCount st.modulesCompleted.own : Int) := by
    show mathRoundRatio ((keyCount st.modulesCompleted.own : Int) * 100)
      ((keyCount configModules : Nat) : Int) = _
    rw [htotal]
    exact mathRoundRatio_quarter _
  refine ⟨htotal, keyCount_eq_card _, rfl, ?_, ?_, ?_, rfl⟩
  · rw [hpc]
    show _ = roundHalfUp (100 * ((keyCount st.modulesCompleted.own : Nat) : ℚ) /
      ((keyCount configModules : Nat) : ℚ))
    rw [htotal]
    have e : (100 * ((keyCount st.modulesCompleted.own : Nat) : ℚ) / ((4 : Nat) : ℚ)) =
        ((25 * (keyCount st.modulesCompleted.own : Int) : Int) : ℚ) := by
      push_cast; ring
    rw [e, roundHalfUp_int]
  · intro h1
    have h1' : keyCount st.modulesCompleted.own = 1 := h1
    rw [hpc, h1']
    rfl
  · intro h2
    have h2' : keyCount st.modulesCompleted.own = 2 := h2
    rw [hpc, h2']
    rfl

/-- C3, as stated, fails: from a state with `totalXP = 2 ^ 53` and no record for
`classroom`, the two calls return 35 and 30, and the double additions of line 85
leave `totalXP = 2 ^ 53 + 66`, which is not `2 ^ 53 + 35 + 30`. -/
theorem completeModule_twice_rounds_large_total :
    hasRecord { freshState "session_1_abc" 1 1 with totalXP := .int (2 ^ 53) } "classroom"
      = false ∧
    (completeModule ⟨false, false, false, .absent⟩
        { freshState "session_1_abc" 1 1 with totalXP := .int (2 ^ 53) } "classroom" 75 2 3
      ).result = .ok (.int 35) ∧
    (completeModule ⟨false, false, false, .absent⟩
        (completeModule ⟨false, false, false, .absent⟩
          { freshState "session_1_abc" 1 1 with totalXP := .int (2 ^ 53) } "classroom" 75 2 3
        ).state "classroom" 85 4 5).result = .ok (.int 30) ∧
    (completeModule ⟨false, false, false, .absent⟩
        (completeModule ⟨false, false, false, .absent⟩
          { freshState "session_1_abc" 1 1 with totalXP := .int (2 ^ 53) } "classroom" 75 2 3
        ).state "classroom" 85 4 5).state.totalXP = .int (2 ^ 53 + 66) ∧
    (2 ^ 53 + 66 : Int) ≠ 2 ^ 53 + 35 + 30 :=
  ⟨rfl, rfl, rfl, by decide, by decide⟩

/-- C3, amended.  Overwrite semantics: when completing a defined module without a
record returns `x1` and completing it again returns `x2`, then `x1` is the
reference XP with the first-completion bonus of 10 and `x2` the reference XP
without it, the module holds exactly the second call's record, and a `totalXP`
that was an integer `total` with `-2 ^ 53 ≤ total` and
`total + x1 + x2 ≤ 2 ^ 53` is `total + x1 + x2` afterwards. -/
theorem completeModule_twice_overwrites (host1 host2 : Host) (st : ProgressState)
    (module : String) (s1 s2 a1 a2 b1 b2 : Int) (x1 x2 : JSNumber)
    (hm : IsDefinedModule module) (hno : hasRecord st module = false)
    (h1 : (completeModule host1 st module s1 a1 a2).result = .ok x1)
    (h2 : (completeModule host2 (completeModule host1 st module s1 a1 a2).state module s2 b1 b2
      ).result = .ok x2) :
    x1 = .int (specXP module s1 false) ∧ x2 = .int (specXP module s2 true) ∧
    specXP module s1 false = specXP module s1 true + 10 ∧
    ownLookup module
        (completeModule host2 (completeModule host1 st module s1 a1 a2).state module s2 b1 b2
          ).state.modulesCompleted.own
      = some { completed := true, score := s2, timestamp := b1, xpEarned := x2 } ∧
    ∀ total : Int, st.totalXP = .int total → -(2 ^ 53) ≤ total →
      total + specXP module s1 false + specXP module s2 true ≤ 2 ^ 53 →
      (completeModule host2 (completeModule host1 st module s1 a1 a2).state module s2 b1 b2
          ).state.totalXP
        = .int (total + specXP module s1 false + specXP module s2 true) := by
  have hx1 : calculateXP st module s1 = .int (specXP module s1 false) := by
    rw [calculateXP_defined st s1 hm, hno]
  have hst1 := completeModule_state host1 st module s1 a1 a2
  have hrec : hasRecord (completeModule host1 st module s1 a1 a2).state module = true := by
    unfold hasRecord
    rw [hst1]
    simp only
    rw [assign_own_of_defined _ _ hm, ownLookup_upsert_self]
    rfl
  have hx2 : calculateXP (completeModule host1 st module s1 a1 a2).state module s2 =
      .int (specXP module s2 true) := by
    rw [calculateXP_defined _ s2 hm, hrec]
  have e1 : x1 = .int (specXP module s1 false) := by
    rw [(completeModule_result_ok h1).1, hx1]
  have e2 : x2 = .int (specXP module s2 true) := by
    rw [(completeModule_result_ok h2).1, hx2]
  refine ⟨e1, e2, specXP_first_eq_repeat_add_ten s1 hm, ?_, ?_⟩
  · rw [completeModule_state host2, hx2, e2]
    simp only
    rw [assign_own_of_defined _ _ hm, ownLookup_upsert_self]
  · intro total ht hlo hhi
    have p1 := specXP_nonneg module s1 false
    have p2 := specXP_nonneg module s2 true
    rw [completeModule_state host2, hx2]
    simp only
    rw [hst1, hx1]
    simp only
    rw [ht, JSNumber.add_int_of_range _ _ (by omega) (by omega),
      JSNumber.add_int_of_range _ _ (by omega) (by omega)]

theorem completeModule_twice_overwrites_witness :
    (IsDefinedModule "practice" ∧
      hasRecord (freshState "session_1_abc" 1 1) "practice" = false ∧
      (completeModule ⟨false, false, false, .absent⟩ (freshState "session_1_abc" 1 1)
        "practice" 85 2 3).result = .ok (.int 46) ∧
      (completeModule ⟨false, true, true, .callable true⟩
        (completeModule ⟨false, false, false, .absent⟩ (freshState "session_1_abc" 1 1)
          "practice" 85 2 3).state "practice" 100 4 5).result = .ok (.int 60)) ∧
    (JSNumber.int 46 = .int (specXP "practice" 85 false) ∧
      JSNumber.int 60 = .int (specXP "practice" 100 true) ∧
      specXP "practice" 85 false = specXP "practice" 85 true + 10 ∧
      ownLookup "practice"
          (completeModule ⟨false, true, true, .callable true⟩
            (completeModule ⟨false, false, false, .absent⟩ (freshState "session_1_abc" 1 1)
              "practice" 85 2 3).state "practice" 100 4 5).state.modulesCompleted.own
        = some { completed := true, score := 100, timestamp := 4, xpEarned := .int 60 } ∧
      ∀ total : Int, (freshState "session_1_abc" 1 1).totalXP = .int total →
        -(2 ^ 53) ≤ total →
        total + specXP "practice" 85 false + specXP "practice" 100 true ≤ 2 ^ 53 →
        (completeModule ⟨false, true, true, .callable true⟩
            (completeModule ⟨false, false, false, .absent⟩ (freshState "session_1_abc" 1 1)
              "practice" 85 2 3).state "practice" 100 4 5).state.totalXP
          = .int (total + specXP "practice" 85 false + specXP "practice" 100 true)) :=
  ⟨⟨by decide, by decide, rfl, rfl⟩,
   completeModule_twice_overwrites ⟨false, false, false, .absent⟩
    ⟨false, true, true, .callable true⟩ (freshState "session_1_abc" 1 1) "practice" 85 100
    2 3 4 5 (.int 46) (.int 60) (by decide) (by decide) rfl rfl⟩

theorem totalXP_eq_sum_when_calls_return (sessionId : String) (t0 t1 : Int)
    (calls : List Call) (h : ∀ c ∈ calls, IsDefinedModule c.module ∧ c.host.Returns)
    (hlen : 80 * (calls.length : Int) ≤ 2 ^ 53) :
    ∃ xs : List Int,
      (runCalls (freshState sessionId t0 t1) calls).2 =
        xs.map (fun x => Except.ok (JSNumber.int x)) ∧
      (runCalls (freshState sessionId t0 t1) calls).1.totalXP = .int xs.sum := by
  obtain ⟨xs, h1, h2⟩ := runCalls_totalXP calls (freshState sessionId t0 t1) 0 rfl (le_refl _)
    (by omega) h
  exact ⟨xs, h1, by simpa using h2⟩

/-- C2.  `completeModule("classroom", 100)` on a fresh state in a page framed by a
cross-origin parent: line 85 has added the 60 XP and the message has been posted
when the read `window.parent.completeModule` of line 111, outside the `try`,
raises a `SecurityError`.  Nothing is returned, so `totalXP = 60` while the
values returned by the calls sum to 0. -/
theorem completeModule_cross_origin_raises_after_adding :
    completeModule ⟨false, true, false, .securityError⟩ (freshState "session_1_abc" 1 1)
        "classroom" 100 2 3 =
      { state :=
          { sessionId := "session_1_abc"
            sessionStart := 1
            modulesCompleted :=
              { own := [("classroom",
                  { completed := true, score := 100, timestamp := 2, xpEarned := .int 60 })]
                proto := none }
            totalXP := .int 60
            currentStreak := 0
            lastActivity := 3 }
        effects :=
          [.consoleLog "classroom" 100,
           .setItem "aceProgress_v2"
            { sessionId := "session_1_abc"
              sessionStart := 1
              modulesCompleted :=
                { own := [("classroom",
                    { completed := true, score := 100, timestamp := 2, xpEarned := .int 60 })]
                  proto := none }
              totalXP := .int 60
              currentStreak := 0
              lastActivity := 3 },
           .progressBar [("classroom", 100)] (.int 60),
           .toast "classroom" 100 (.int 60),
           .postMessage "classroom" 100 (.int 60) "session_1_abc"]
        result := .error .securityError } ∧
    (runCalls (freshState "session_1_abc" 1 1)
        [⟨⟨false, true, false, .securityError⟩, "classroom", 100, 2, 3⟩]).2
      = [.error .securityError] ∧
    (runCalls (freshState "session_1_abc" 1 1)
        [⟨⟨false, true, false, .securityError⟩, "classroom", 100, 2, 3⟩]).1.totalXP
      = .int 60 :=
  ⟨rfl, rfl, rfl⟩

theorem calculateXP_of_inherited (st : ProgressState) {module : String} (score : Int)
    (h : readConfigModule module = .inherited) : calculateXP st module score = .nan := by
  unfold calculateXP
  rw [h]
  rfl

theorem calculateXP_of_unconfigured (st : ProgressState) {module : String} (score : Int)
    (h : readConfigModule module = .undefined) : calculateXP st module score = .int 0 := by
  unfold calculateXP
  rw [h]

theorem calculateXP_refines_spec (st : ProgressState) (module : String) (score : Int)
    (h : readConfigModule module ≠ .inherited) :
    calculateXP st module score = .int (specXP module score (hasRecord st module)) := by
  by_cases hd : IsDefinedModule module
  · exact calculateXP_defined st score hd
  · have hnone : ownLookup module configModules = none := by
      unfold IsDefinedModule at hd
      simp only [not_or] at hd
      obtain ⟨h1, h2, h3, h4⟩ := hd
      simp only [configModules, ownLookup_cons]
      rw [if_neg (Ne.symm h1), if_neg (Ne.symm h2), if_neg (Ne.symm h3), if_neg (Ne.symm h4)]
      rfl
    have hu : readConfigModule module = .undefined := by
      unfold readConfigModule at h ⊢
      rw [hnone] at h ⊢
      simp only at h ⊢
      split_ifs with hp
      · rw [if_pos hp] at h
        exact absurd rfl h
      · rfl
    have hs : specBaseXP module = none := by
      unfold IsDefinedModule at hd
      simp only [not_or] at hd
      obtain ⟨h1, h2, h3, h4⟩ := hd
      unfold specBaseXP
      rw [if_neg h1, if_neg h2, if_neg h3, if_neg h4]
    rw [calculateXP_of_unconfigured st score hu]
    unfold specXP
    rw [hs]

theorem totalXP_nondecreasing_of_not_inherited (host : Host) (st : ProgressState)
    (module : String) (score now1 now2 total : Int)
    (h : readConfigModule module ≠ .inherited) (ht : st.totalXP = .int total)
    (h0 : 0 ≤ total) (hhi : total + specXP module score (hasRecord st module) ≤ 2 ^ 53) :
    ∃ total' : Int, (completeModule host st module score now1 now2).state.totalXP = .int total' ∧
      total ≤ total' := by
  have hx := specXP_nonneg module score (hasRecord st module)
  refine ⟨total + specXP module score (hasRecord st module), ?_, by omega⟩
  rw [completeModule_state, calculateXP_refines_spec st module score h, ht]
  exact JSNumber.add_int_of_range _ _ (by omega) hhi

/-- C1.  `calculateXP` at a module identifier outside the four configured ones:
`config.modules["toString"]` reads the method inherited from `Object.prototype`,
which passes the guard of line 52 and has no `baseXP`, so the result is `NaN`
where the claim says `0`. -/
theorem calculateXP_toString_is_nan :
    ¬ IsDefinedModule "toString" ∧
    readConfigModule "toString" = .inherited ∧
    calculateXP (freshState "session_1_abc" 1 1) "toString" 100 = .nan := by
  decide

/-- C4.  `completeModule("toString", 100)` on a fresh state, whose `totalXP` is
`0`: the call returns `NaN` and leaves `totalXP = NaN`, which is not an integer
and for which `totalXP' >= totalXP` is false. -/
theorem completeModule_toString_totalXP_nan :
    (freshState "session_1_abc" 1 1).totalXP = .int 0 ∧
    (completeModule ⟨false, false, false, .absent⟩ (freshState "session_1_abc" 1 1)
      "toString" 100 2 3).result = .ok .nan ∧
    (completeModule ⟨false, false, false, .absent⟩ (freshState "session_1_abc" 1 1)
      "toString" 100 2 3).state.totalXP = .nan ∧
    JSNumber.ge
      (completeModule ⟨false, false, false, .absent⟩ (freshState "session_1_abc" 1 1)
        "toString" 100 2 3).state.totalXP (freshState "session_1_abc" 1 1).totalXP = false :=
  ⟨rfl, rfl, rfl, rfl⟩

/-- C6.  `completeModule("unknownmodule", 50)` on a fresh state inside an embedding
page: the zero-XP record is written, `totalXP` stays `0`, the state is persisted
and the progress bar refreshed, and then `showCompletionToast` raises a
`TypeError`: no toast, no host notification, no return value. -/
theorem completeModule_unknownmodule_raises :
    completeModule ⟨false, true, false, .callable false⟩ (freshState "session_1_abc" 1 1)
        "unknownmodule" 50 2 3 =
      { state :=
          { sessionId := "session_1_abc"
            sessionStart := 1
            modulesCompleted :=
              { own := [("unknownmodule",
                  { completed := true, score := 50, timestamp := 2, xpEarned := .int 0 })]
                proto := none }
            totalXP := .int 0
            currentStreak := 0
            lastActivity := 3 }
        effects :=
          [.consoleLog "unknownmodule" 50,
           .setItem "aceProgress_v2"
            { sessionId := "session_1_abc"
              sessionStart := 1
              modulesCompleted :=
                { own := [("unknownmodule",
                    { completed := true, score := 50, timestamp := 2, xpEarned := .int 0 })]
                  proto := none }
              totalXP := .int 0
              currentStreak := 0
              lastActivity := 3 },
           .progressBar [] (.int 0)]
        result := .error .typeError } := by
  rfl

theorem loadState_of_falsy (saved : Option String) (now0 : Int) (suffix : String)
    (now1 now2 : Int) (h : saved = none ∨ saved = some "") :
    loadState saved now0 suffix now1 now2 =
      .ok (.fresh (freshState (generateSessionId now0 suffix) now1 now2)) := by
  rcases h with h | h <;> subst h <;> rfl

theorem loadState_of_text (text : String) (now0 : Int) (suffix : String) (now1 now2 : Int)
    (h : text ≠ "") :
    loadState (some text) now0 suffix now1 now2 = (jsonParse text).map LoadedState.stored := by
  unfold loadState
  simp only
  rw [if_pos h]

/-- C5, as stated, fails: a stored payload that is not valid JSON makes `loadState`
raise the `SyntaxError` of `JSON.parse` instead of returning a fresh state. -/
theorem loadState_malformed_raises :
    loadState (some "corrupted") 1000 "k3j9x2m1q" 1000 1000 = .error .invalidJSON ∧
    loadState (some "\x7b") 1000 "k3j9x2m1q" 1000 1000 = .error .invalidJSON :=
  ⟨rfl, rfl⟩

/-- C5, amended.  With an absent or empty slot `loadState` returns a freshly
initialised state: the generated session id, `totalXP = 0`, no completions,
`currentStreak = 0`, `sessionStart` and `lastActivity` the clock readings.  With
a non-empty payload it returns what `JSON.parse` returns and raises what
`JSON.parse` raises. -/
theorem loadState_outcome (saved : Option String) (now0 : Int) (suffix : String)
    (now1 now2 : Int) :
    ((saved = none ∨ saved = some "") →
      loadState saved now0 suffix now1 now2 =
        .ok (.fresh
          { sessionId := generateSessionId now0 suffix
            sessionStart := now1
            modulesCompleted := { own := [], proto := none }
            totalXP := .int 0
            currentStreak := 0
            lastActivity := now2 })) ∧
    (∀ text : String, saved = some text → text ≠ "" →
      (∀ v, jsonParse text = .ok v →
        loadState saved now0 suffix now1 now2 = .ok (.stored v)) ∧
      (∀ e, jsonParse text = .error e → loadState saved now0 suffix now1 now2 = .error e)) := by
  refine ⟨fun h => loadState_of_falsy saved now0 suffix now1 now2 h, ?_⟩
  intro text hs hne
  subst hs
  rw [loadState_of_text text now0 suffix now1 now2 hne]
  exact ⟨fun v hv => by rw [hv]; rfl, fun e he => by rw [he]; rfl⟩

theorem loadState_outcome_witness :
    loadState none 1000 "k3j9x2m1q" 1001 1002 =
        .ok (.fresh
          { sessionId := generateSessionId 1000 "k3j9x2m1q"
            sessionStart := 1001
            modulesCompleted := { own := [], proto := none }
            totalXP := .int 0
            currentStreak := 0
            lastActivity := 1002 }) ∧
    loadState (some "[25, true]") 1000 "k3j9x2m1q" 1001 1002 =
        .ok (.stored (.arr [.num 25 0, .bool true])) ∧
    loadState (some "[25, true") 1000 "k3j9x2m1q" 1001 1002 = .error .invalidJSON :=
  ⟨(loadState_outcome none 1000 "k3j9x2m1q" 1001 1002).1 (Or.inl rfl),
   ((loadState_outcome (some "[25, true]") 1000 "k3j9x2m1q" 1001 1002).2 _ rfl (by decide)).1
      _ rfl,
   ((loadState_outcome (some "[25, true") 1000 "k3j9x2m1q" 1001 1002).2 _ rfl (by decide)).2
      _ rfl⟩

/-- C7, as stated, fails: with no stored record two consecutive calls of
`loadState` build states that differ in `sessionId`, `sessionStart` and
`lastActivity` as soon as the clock has advanced. -/
theorem loadState_twice_absent_differs :
    ∃ st1 st2 : ProgressState,
      loadState none 1000 "k3j9x2m1q" 1000 1000 = .ok (.fresh st1) ∧
      loadState none 1001 "k3j9x2m1q" 1001 1001 = .ok (.fresh st2) ∧
      st1.sessionId ≠ st2.sessionId ∧ st1.sessionStart ≠ st2.sessionStart ∧
      st1.lastActivity ≠ st2.lastActivity :=
  ⟨_, _, rfl, rfl, by decide, by decide, by decide⟩

/-- C7, amended.  With a non-empty payload two consecutive calls of `loadState`
have the same outcome whatever the clock and the random source yield.  With an
absent or empty slot each call builds its own fresh state: the two agree on
`modulesCompleted`, `totalXP` and `currentStreak`, and each carries the session
id, `sessionStart` and `lastActivity` of its own call. -/
theorem loadState_twice (saved : Option String) (a0 a1 a2 b0 b1 b2 : Int) (ra rb : String) :
    (∀ text : String, saved = some text → text ≠ "" →
      loadState saved a0 ra a1 a2 = loadState saved b0 rb b1 b2) ∧
    ((saved = none ∨ saved = some "") →
      ∃ st1 st2 : ProgressState,
        loadState saved a0 ra a1 a2 = .ok (.fresh st1) ∧
        loadState saved b0 rb b1 b2 = .ok (.fresh st2) ∧
        st1.modulesCompleted = st2.modulesCompleted ∧ st1.totalXP = st2.totalXP ∧
        st1.currentStreak = st2.currentStreak ∧
        st1.sessionId = generateSessionId a0 ra ∧ st2.sessionId = generateSessionId b0 rb ∧
        st1.sessionStart = a1 ∧ st2.sessionStart = b1 ∧
        st1.lastActivity = a2 ∧ st2.lastActivity = b2) := by
  constructor
  · intro text hs hne
    subst hs
    rw [loadState_of_text text a0 ra a1 a2 hne, loadState_of_text text b0 rb b1 b2 hne]
  · intro h
    exact ⟨_, _, loadState_of_falsy saved a0 ra a1 a2 h, loadState_of_falsy saved b0 rb b1 b2 h,
      rfl, rfl, rfl, rfl, rfl, rfl, rfl, rfl, rfl⟩

theorem loadState_twice_witness :
    loadState (some "[25, true]") 1000 "k3j9x2m1q" 1000 1000 =
      loadState (some "[25, true]") 1001 "p0o9i8u7y" 1001 1001 :=
  (loadState_twice (some "[25, true]") 1000 1000 1000 1001 1001 1001 "k3j9x2m1q" "p0o9i8u7y").1
    _ rfl (by decide)

theorem skipWs_length (cs : List Char) : (skipWs cs).length ≤ cs.length := by
  induction cs with
  | nil => exact le_refl _
  | cons c cs ih =>
    unfold skipWs
    split_ifs
    · exact Nat.le_succ_of_le ih
    · exact le_refl _

theorem takeDigits_length (cs : List Char) :
    (takeDigits cs).1.length + (takeDigits cs).2.length = cs.length := by
  induction cs with
  | nil => rfl
  | cons c cs ih =>
    unfold takeDigits
    split_ifs
    · simp only [List.length_cons]; omega
    · simp

theorem scanString_length (n : Nat) :
    ∀ (cs : List Char) (acc : List Nat) (s : List Nat) (rest : List Char),
      cs.length ≤ n → scanString acc cs = some (s, rest) → rest.length < cs.length := by
  induction n using Nat.strong_induction_on with
  | _ n ih =>
    intro cs acc s rest hn h
    unfold scanString at h
    split at h
    · exact absurd h (by simp)
    · simp only [Option.some.injEq, Prod.mk.injEq] at h
      rw [← h.2]; simp
    · exact absurd h (by simp)
    · rename_i _ _ e rest0
      simp only [List.length_cons] at hn ⊢
      have step : ∀ acc', scanString acc' rest0 = some (s, rest) → rest.length < rest0.length + 1 + 1 :=
        fun acc' h' => by
          have := ih rest0.length (by omega) rest0 acc' s rest (le_refl _) h'
          omega
      split_ifs at h
      any_goals exact step _ h
      split at h
      · rename_i a b c d rest1
        split at h
        · have := ih rest1.length (by simp only [List.length_cons] at hn; omega) rest1 _ s rest
            (le_refl _) h
          simp only [List.length_cons]; omega
        · exact absurd h (by simp)
      · exact absurd h (by simp)
    · rename_i _ _ c rest0 _ _ _
      split_ifs at h
      simp only [List.length_cons] at hn ⊢
      have := ih rest0.length (by omega) rest0 _ s rest (le_refl _) h
      omega

theorem takeDigits_rest_le (cs : List Char) : (takeDigits cs).2.length ≤ cs.length := by
  have := takeDigits_length cs
  omega

theorem takeDigits_rest_lt {cs : List Char} (h : (takeDigits cs).1 ≠ []) :
    (takeDigits cs).2.length < cs.length := by
  have := takeDigits_length cs
  have : 0 < (takeDigits cs).1.length := List.length_pos.2 h
  omega

theorem scanFraction_length {cs : List Char} {ds : List Nat} {rest : List Char}
    (h : scanFraction cs = some (ds, rest)) : rest.length ≤ cs.length := by
  unfold scanFraction at h
  split at h
  · rename_i cs0
    have hl := takeDigits_rest_le cs0
    split at h
    · exact absurd h (by simp)
    · rename_i ds0 rest0 _ heq
      simp only [Option.some.injEq, Prod.mk.injEq] at h
      rw [heq] at hl
      rw [← h.2]
      simp only [List.length_cons]
      exact Nat.le_succ_of_le hl
  · simp only [Option.some.injEq, Prod.mk.injEq] at h
    rw [← h.2]

theorem scanExponentDigits_length {negative : Bool} {cs : List Char} {e : Int}
    {rest : List Char} (h : scanExponentDigits negative cs = some (e, rest)) :
    rest.length ≤ cs.length := by
  unfold scanExponentDigits at h
  have hl := takeDigits_rest_le cs
  split at h
  · exact absurd h (by simp)
  · rename_i es0 rest0 _ heq
    simp only [Option.some.injEq, Prod.mk.injEq] at h
    rw [heq] at hl
    rw [← h.2]
    exact hl

theorem scanExponent_length {cs : List Char} {e : Int} {rest : List Char}
    (h : scanExponent cs = some (e, rest)) : rest.length ≤ cs.length := by
  unfold scanExponent at h
  split at h
  · rename_i c cs0
    split_ifs at h
    · split at h
      · have := scanExponentDigits_length h
        simp only [List.length_cons]; omega
      · have := scanExponentDigits_length h
        simp only [List.length_cons]; omega
      · have := scanExponentDigits_length h
        simp only [List.length_cons]; omega
    · simp only [Option.some.injEq, Prod.mk.injEq] at h
      rw [← h.2]
  · simp only [Option.some.injEq, Prod.mk.injEq] at h
    rw [← h.2]

theorem scanUnsigned_length {cs : List Char} {m : Nat} {e : Int} {rest : List Char}
    (h : scanUnsigned cs = some (m, e, rest)) : rest.length < cs.length := by
  unfold scanUnsigned at h
  split at h
  · exact absurd h (by simp)
  · rename_i d ds rest0 heq
    have hl : rest0.length < cs.length := by
      have := @takeDigits_rest_lt cs (by rw [heq]; simp)
      rw [heq] at this
      exact this
    split_ifs at h
    split at h
    · exact absurd h (by simp)
    · rename_i fs rest1 hf
      have h1 := scanFraction_length hf
      split at h
      · exact absurd h (by simp)
      · rename_i e0 rest2 he
        have h2 := scanExponent_length he
        simp only [Option.some.injEq, Prod.mk.injEq] at h
        rw [← h.2.2]
        omega

theorem scanNumber_length {cs : List Char} {m e : Int} {rest : List Char}
    (h : scanNumber cs = some (m, e, rest)) : rest.length < cs.length := by
  unfold scanNumber at h
  split at h
  · rename_i cs0
    cases hu : scanUnsigned cs0 with
    | none => rw [hu] at h; exact absurd h (by simp)
    | some r =>
      obtain ⟨m0, e0, rest0⟩ := r
      rw [hu] at h
      simp only [Option.map_some', Option.some.injEq, Prod.mk.injEq] at h
      have := scanUnsigned_length hu
      rw [← h.2.2]
      simp only [List.length_cons]; omega
  · cases hu : scanUnsigned cs with
    | none => rw [hu] at h; exact absurd h (by simp)
    | some r =>
      obtain ⟨m0, e0, rest0⟩ := r
      rw [hu] at h
      simp only [Option.map_some', Option.some.injEq, Prod.mk.injEq] at h
      have := scanUnsigned_length hu
      rw [← h.2.2]
      exact this

theorem Parsed.consumes_ok {input rest : List Char} (v : JSValue)
    (h : rest.length < input.length) : Parsed.Consumes input (.ok v rest) :=
  ⟨fun hh => Parsed.noConfusion hh, fun _ _ hh => by
    injection hh with _ h2
    rw [← h2]; exact h⟩

theorem Parsed.consumes_fail (input : List Char) : Parsed.Consumes input .fail :=
  ⟨fun hh => Parsed.noConfusion hh, fun _ _ hh => Parsed.noConfusion hh⟩

theorem Parsed.Consumes.mono {input input' : List Char} {r : Parsed JSValue}
    (h : Parsed.Consumes input' r) (hle : input'.length ≤ input.length) :
    Parsed.Consumes input r :=
  ⟨h.1, fun v rest hh => lt_of_lt_of_le (h.2 v rest hh) hle⟩

theorem parse_fuel (n : Nat) :
    (∀ input : List Char, input.length < n → Parsed.Consumes input (parseValue n input)) ∧
    (∀ (acc : List JSValue) (input : List Char), input.length < n →
      Parsed.Consumes input (parseArrayTail n acc input)) ∧
    (∀ (acc : List (List Nat × JSValue)) (input : List Char), input.length < n →
      Parsed.Consumes input (parseMember n acc input)) := by
  induction n with
  | zero =>
    exact ⟨fun _ h => absurd h (Nat.not_lt_zero _), fun _ _ h => absurd h (Nat.not_lt_zero _),
      fun _ _ h => absurd h (Nat.not_lt_zero _)⟩
  | succ n ih =>
    obtain ⟨ihV, ihA, ihM⟩ := ih
    refine ⟨?_, ?_, ?_⟩
    · intro input hlen
      have hws := skipWs_length input
      simp only [parseValue]
      generalize skipWs input = l at hws
      split
      · exact Parsed.consumes_ok _ (by simp only [List.length_cons] at hws; omega)
      · exact Parsed.consumes_ok _ (by simp only [List.length_cons] at hws; omega)
      · exact Parsed.consumes_ok _ (by simp only [List.length_cons] at hws; omega)
      · split
        · rename_i hs
          have := scanString_length _ _ _ _ _ (le_refl _) hs
          exact Parsed.consumes_ok _ (by simp only [List.length_cons] at hws; omega)
        · exact Parsed.consumes_fail _
      · rename_i _ cs
        have hcs : cs.length < n := by simp only [List.length_cons] at hws; omega
        have hcsi : cs.length ≤ input.length := by simp only [List.length_cons] at hws; omega
        have hwc := skipWs_length cs
        split
        · rename_i rest heq
          rw [heq] at hwc
          exact Parsed.consumes_ok _ (by simp only [List.length_cons] at hwc; omega)
        · have hv := ihV cs hcs
          split
          · rename_i v rest heq
            have hr := hv.2 v rest heq
            exact (ihA [v] rest (by omega)).mono (by omega)
          · exact Parsed.consumes_fail _
          · rename_i heq
            exact absurd heq hv.1
      · rename_i _ cs
        have hcs : cs.length < n := by simp only [List.length_cons] at hws; omega
        have hcsi : cs.length ≤ input.length := by simp only [List.length_cons] at hws; omega
        have hwc := skipWs_length cs
        split
        · rename_i rest heq
          rw [heq] at hwc
          exact Parsed.consumes_ok _ (by simp only [List.length_cons] at hwc; omega)
        · exact (ihM [] _ (by omega)).mono (by omega)
      · split
        · rename_i m e rest heq
          have := scanNumber_length heq
          exact Parsed.consumes_ok _ (by omega)
        · exact Parsed.consumes_fail _
    · intro acc input hlen
      have hws := skipWs_length input
      simp only [parseArrayTail]
      generalize skipWs input = l at hws
      split
      · exact Parsed.consumes_ok _ (by simp only [List.length_cons] at hws; omega)
      · rename_i cs
        have hcs : cs.length < n := by simp only [List.length_cons] at hws; omega
        have hv := ihV cs hcs
        split
        · rename_i v rest heq
          have hr := hv.2 v rest heq
          exact (ihA _ rest (by omega)).mono
            (by simp only [List.length_cons] at hws; omega)
        · exact Parsed.consumes_fail _
        · rename_i heq
          exact absurd heq hv.1
      · exact Parsed.consumes_fail _
    · intro acc input hlen
      have hws := skipWs_length input
      simp only [parseMember]
      generalize skipWs input = l at hws
      split
      · rename_i ks
        split
        · rename_i k afterKey hs
          have hk := scanString_length _ _ _ _ _ (le_refl _) hs
          have hwa := skipWs_length afterKey
          generalize skipWs afterKey = la at hwa
          split
          · rename_i vs
            have hvs : vs.length < n := by simp only [List.length_cons] at hws hwa; omega
            have hv := ihV vs hvs
            split
            · rename_i v rest heq
              have hr := hv.2 v rest heq
              have hwr := skipWs_length rest
              generalize skipWs rest = lr at hwr
              split
              · exact Parsed.consumes_ok _
                  (by simp only [List.length_cons] at hws hwa hwr; omega)
              · rename_i more
                exact (ihM _ more (by simp only [List.length_cons] at hwr; omega)).mono
                  (by simp only [List.length_cons] at hws hwa hwr; omega)
              · exact Parsed.consumes_fail _
            · exact Parsed.consumes_fail _
            · rename_i heq
              exact absurd heq hv.1
          · exact Parsed.consumes_fail _
        · exact Parsed.consumes_fail _
      · exact Parsed.consumes_fail _

/-- The fuel `jsonParse` gives `parseValue` never runs out. -/
theorem parseValue_fuel (text : String) :
    parseValue (text.length + 1) text.toList ≠ .outOfFuel :=
  ((parse_fuel (text.length + 1)).1 text.toList (by
    show text.data.length < text.data.length + 1
    exact Nat.lt_succ_self _)).1

theorem jsonParse_error_iff (text : String) (e : JSError) :
    jsonParse text = .error e ↔
      e = .invalidJSON ∧
        (parseValue (text.length + 1) text.toList = .fail ∨
          ∃ v rest, parseValue (text.length + 1) text.toList = .ok v rest ∧ skipWs rest ≠ []) := by
  have hf := parseValue_fuel text
  unfold jsonParse
  cases hp : parseValue (text.length + 1) text.toList with
  | outOfFuel => exact absurd hp hf
  | fail =>
    constructor
    · intro h
      injection h with h
      exact ⟨h.symm, Or.inl rfl⟩
    · rintro ⟨h, _⟩
      rw [h]
  | ok v rest =>
    simp only
    by_cases hr : skipWs rest = []
    · rw [if_pos hr]
      constructor
      · intro h
        exact Except.noConfusion h
      · rintro ⟨_, h | ⟨v', rest', h, hne⟩⟩
        · exact Parsed.noConfusion h
        · injection h with _ h2
          rw [← h2] at hne
          exact absurd hr hne
    · rw [if_neg hr]
      constructor
      · intro h
        injection h with h
        exact ⟨h.symm, Or.inr ⟨v, rest, rfl, hr⟩⟩
      · rintro ⟨h, _⟩
        rw [h]

end AceProgressTracker
